import Mathlib

/-!
Verification development for the coverage-guided fuzzer core
(`src/coverage.rs`, `src/corpus.rs`).

Modelling conventions of this shallow embedding:
* machine integers (`u32`, `u64`, `usize`) become `Nat`; the `i32` exit code of
  `execute_script` becomes `Int`; no operation modelled here overflows,
* `f32`/`f64` arithmetic is modelled by exact rational arithmetic over `ℚ`
  (all constants involved — 0.8, 0.95, 0.90, 0.001, 0.2, 0.1, 0.3, 0.4 — are
  decimal literals, read exactly),
* `Instant::now()` becomes an explicit `now : ℕ` argument; monotonic instants
  are naturals,
* an `EdgeSet` (a `count` plus that many `u32` indices) becomes a `List ℕ`,
* the random number generator is an explicit argument: `rng.gen::<f64>()`
  (uniform in `[0,1)`) becomes a parameter `ρ : ℚ`, `rng.gen_range(0..n)`
  becomes `r % n` for a parameter `r : ℕ`,
* the `PROFILE` environment variable becomes an `Option String` argument
  (`none` = variable unset),
* a run of the instrumented target (`execute_script` followed by
  `cov_evaluate`) is one element of an input list `runs`: the raw exit code
  paired with the list of newly reported edges.  The verifier loops run the
  target exactly 5 times, so the lists handed to the theorems below are taken
  `take 5`,
* `HashMap` fields keyed by `u64` become functions `ℕ → Option ℕ`
  (`insert` is pointwise override),
* filesystem and terminal side effects (`dump_stats_to_json`, debug prints)
  are not modelled; the state they read (counters) is.
-/

/-- Exit-code classification of `coverage.rs` (`enum ResultCode`). -/
inductive ResultCode where
  | Success
  | Timeout
  | Error
  | Crash
deriving DecidableEq, Repr

/-- `get_result_code` of `coverage.rs` lines 68–96.  The `PROFILE` environment
variable is passed explicitly; `envProfile.getD "v8"` mirrors
`std::env::var("PROFILE").unwrap_or_else(|_| "v8".to_string())`. -/
def get_result_code (envProfile : Option String) (result_code : Int) : ResultCode :=
  if result_code = 0 then ResultCode.Success
  else if result_code = 65536 then ResultCode.Timeout
  else
    let profile := envProfile.getD "v8"
    if profile = "v8" then
      if result_code = 5 ∨ result_code = 6 ∨ result_code = 11 then ResultCode.Crash
      else ResultCode.Error
    else if profile = "gecko" ∧ result_code = 256 then ResultCode.Crash
    else if profile = "jsc" ∧ (result_code = 256 ∨ result_code = 6 ∨ result_code = 11) then
      ResultCode.Crash
    else ResultCode.Error

/-- Opaque handle returned by the bytecode component.  The core never inspects
it (spec §4.3, §9); it is modelled as an abstract tag. -/
structure BytecodeAnalysis where
  tag : ℕ
deriving DecidableEq

/-- Modelled from the spec: the bytecode collector of the `corpus_aspect`
module, whose source is not part of this repository.  Spec §9: "a component
exposing `analyze(source, worker_id) → (analysis, is_novel)`"; the core
consumes only the boolean and stores the opaque analysis.  `analyze` returning
`none` models the `Err` case of `analyze_js_bytecode`. -/
structure BytecodeCollector where
  analyze : String → ℕ → Option (BytecodeAnalysis × Bool)

/-- `CorpusEntry` of `corpus.rs` lines 12–32.  The set/map bookkeeping fields
that no modelled operation reads or writes (`produced_mutations`,
`feature_frequency`, `module_performance`, `module_features`) are elided. -/
structure CorpusEntry where
  index : ℕ
  times_used : ℕ
  program_ir : String
  js_code : String
  coverage_found : ℕ
  success_count : ℕ
  error_count : ℕ
  timeout_count : ℕ
  last_coverage_found : ℕ
  last_used : ℕ
  creation_time : ℕ
  performance_score : ℚ
  bytecode_analysis : Option BytecodeAnalysis
  has_novel_bytecode : Bool

/-- `CorpusEntry::new` (`corpus.rs` lines 48–70); `now` stands for
`Instant::now()`. -/
def CorpusEntry.new (program_ir js_code : String) (now : ℕ) : CorpusEntry :=
  { index := 0
    times_used := 0
    program_ir := program_ir
    js_code := js_code
    coverage_found := 0
    success_count := 0
    error_count := 0
    timeout_count := 0
    last_coverage_found := now
    last_used := now
    creation_time := now
    performance_score := 1
    bytecode_analysis := none
    has_novel_bytecode := false }

/-- `CorpusStats` of `corpus.rs` lines 80–85. -/
structure CorpusStats where
  total_mutations : ℕ
  successful_mutations : ℕ
  total_coverage : ℕ
  avg_entry_size : ℚ

/-- `CorpusManager` of `corpus.rs` lines 34–45.  The `VecDeque` of entries is
a list; the `total_coverage` and `corpus_hash` hash maps are functions to
`Option`. -/
structure CorpusManager where
  worker_id : ℕ
  entries : List CorpusEntry
  max_size : ℕ
  min_energy : ℚ
  total_coverage : ℕ → Option ℕ
  corpus_hash : ℕ → Option Bool
  last_new_coverage : ℕ
  stats : CorpusStats
  selection_counter : ℕ
  bytecode_collector : Option BytecodeCollector

/-- `CorpusManager::new` (`corpus.rs` lines 95–113). -/
def CorpusManager.new (worker_id max_size : ℕ) (now : ℕ) : CorpusManager :=
  { worker_id := worker_id
    entries := []
    max_size := max_size
    min_energy := 0.1
    total_coverage := fun _ => none
    corpus_hash := fun _ => none
    last_new_coverage := now
    stats := { total_mutations := 0, successful_mutations := 0,
               total_coverage := 0, avg_entry_size := 0 }
    selection_counter := 0
    bytecode_collector := none }

/-- In-place update of the first list element satisfying `p`, mirroring
`self.entries.iter_mut().find(|e| ...)` followed by a mutation. -/
def updateFirst (p : α → Bool) (f : α → α) : List α → List α
  | [] => []
  | a :: rest => if p a then f a :: rest else a :: updateFirst p f rest

/-- `CorpusManager::record_mutation_result` (`corpus.rs` lines 392–397). -/
def record_mutation_result (success : Bool) (m : CorpusManager) : CorpusManager :=
  { m with stats :=
      { m.stats with
        total_mutations := m.stats.total_mutations + 1
        successful_mutations :=
          m.stats.successful_mutations + (if success then 1 else 0) } }

/-- `CorpusManager::update_entry_success` (`corpus.rs` lines 148–160): bump the
first entry with the given index (if any), then unconditionally refresh
`last_new_coverage` and overwrite `total_coverage[index]`. -/
def update_entry_success (index new_coverage now : ℕ) (m : CorpusManager) :
    CorpusManager :=
  { m with
    entries := updateFirst (fun e => e.index == index)
      (fun e =>
        { e with
          success_count := e.success_count + 1
          last_coverage_found := now
          coverage_found := e.coverage_found + new_coverage }) m.entries
    last_new_coverage := now
    total_coverage := fun k => if k = index then some new_coverage else m.total_coverage k }

/-- `CorpusManager::update_entry_error` (`corpus.rs` lines 756–772): bump the
error counter and multiply the performance score by 0.95 on the first entry
with the given index, then record an unsuccessful mutation. -/
def update_entry_error (index now : ℕ) (m : CorpusManager) : CorpusManager :=
  record_mutation_result false
    { m with
      entries := updateFirst (fun e => e.index == index)
        (fun e =>
          { e with
            error_count := e.error_count + 1
            last_used := now
            performance_score := e.performance_score * 0.95 }) m.entries }

/-- `CorpusManager::update_entry_timeout` (`corpus.rs` lines 774–790): bump the
timeout counter and multiply the performance score by 0.90 on the first entry
with the given index, then record an unsuccessful mutation. -/
def update_entry_timeout (index now : ℕ) (m : CorpusManager) : CorpusManager :=
  record_mutation_result false
    { m with
      entries := updateFirst (fun e => e.index == index)
        (fun e =>
          { e with
            timeout_count := e.timeout_count + 1
            last_used := now
            performance_score := e.performance_score * 0.90 }) m.entries }

/-- `CorpusManager::analyze_bytecode_novelty` (`corpus.rs` lines 809–827):
with a collector attached, run it, store the analysis and the novelty flag on
the entry, and return the flag; without a collector (or on collector failure)
return `false` and leave the entry unchanged. -/
def analyze_bytecode_novelty (m : CorpusManager) (e : CorpusEntry) :
    Bool × CorpusEntry :=
  match m.bytecode_collector with
  | some c =>
    match c.analyze e.js_code m.worker_id with
    | some (analysis, is_novel) =>
      (is_novel,
        { e with bytecode_analysis := some analysis, has_novel_bytecode := is_novel })
    | none => (false, e)
  | none => (false, e)

/-- `CorpusManager::should_keep_entry` (`corpus.rs` lines 835–842). -/
def should_keep_entry (m : CorpusManager) (e : CorpusEntry)
    (has_new_coverage : Bool) : Bool × CorpusEntry :=
  if has_new_coverage then (true, e)
  else analyze_bytecode_novelty m e

/-- Size factor of the selection score (`corpus.rs` line 203). -/
def sizeFactor (e : CorpusEntry) : ℚ :=
  1 / (1 + (e.js_code.length : ℚ) * 0.001)

/-- Success factor of the selection score (`corpus.rs` line 206). -/
def successFactor (e : CorpusEntry) : ℚ :=
  1 + (e.success_count : ℚ) * 0.2

/-- Coverage factor of the selection score (`corpus.rs` line 207). -/
def coverageFactor (e : CorpusEntry) : ℚ :=
  1 + (e.coverage_found : ℚ) * 0.1

/-- Error penalty of the selection score (`corpus.rs` line 210). -/
def errorPenalty (e : CorpusEntry) : ℚ :=
  1 / (1 + (e.error_count : ℚ) * 0.3)

/-- Timeout penalty of the selection score (`corpus.rs` line 211). -/
def timeoutPenalty (e : CorpusEntry) : ℚ :=
  1 / (1 + (e.timeout_count : ℚ) * 0.4)

/-- Usage penalty of the selection score (`corpus.rs` line 214). -/
def usagePenalty (e : CorpusEntry) : ℚ :=
  1 / (1 + (e.times_used : ℚ) * 0.2)

/-- The selection score of one entry (`corpus.rs` lines 200–217):
`score = performance_score`, then
`score *= size · success · coverage · err · tmo · use`. -/
def entryScore (e : CorpusEntry) : ℚ :=
  e.performance_score *
    (sizeFactor e * successFactor e * coverageFactor e * errorPenalty e *
      timeoutPenalty e * usagePenalty e)

/-- The `(idx, score)` pairs built by `enumerate().map(...)` in
`select_next_input` (`corpus.rs` lines 198–221). -/
def scoreList (entries : List CorpusEntry) : List (ℕ × ℚ) :=
  entries.enum.map (fun p => (p.1, entryScore p.2))

/-- Sum of all selection scores of a corpus. -/
def totalScore (entries : List CorpusEntry) : ℚ :=
  (entries.map entryScore).sum

/-- Sum of the selection scores of the first `k` entries. -/
def sumTo (entries : List CorpusEntry) (k : ℕ) : ℚ :=
  ((entries.take k).map entryScore).sum

/-- The selection walk of `select_next_input` (`corpus.rs` lines 230–245):
`selection -= score; if selection <= 0.0 { return ... }`. -/
def selectWalk (r : ℚ) : List (ℕ × ℚ) → Option ℕ
  | [] => none
  | (idx, s) :: rest => if r - s ≤ 0 then some idx else selectWalk (r - s) rest

/-- The `times_used` increment performed on the selected entry. -/
def bumpUsage (e : CorpusEntry) : CorpusEntry :=
  { e with times_used := e.times_used + 1 }

/-- `CorpusManager::select_next_input` (`corpus.rs` lines 179–249).  The
uniform draw `rng.gen::<f64>()` is the parameter `ρ ∈ [0,1)`; the periodic
`dump_stats_to_json` filesystem write is not modelled (the selection counter
it keys on is).  Returns the selected clone (if any) and the updated
manager. -/
def select_next_input (ρ : ℚ) (m : CorpusManager) :
    Option CorpusEntry × CorpusManager :=
  let m1 := { m with selection_counter := m.selection_counter + 1 }
  if m1.entries.isEmpty then (none, m1)
  else
    let scores := scoreList m1.entries
    let total : ℚ := (scores.map Prod.snd).sum
    if total ≤ 0 then (none, m1)
    else
      match selectWalk (ρ * total) scores with
      | some idx =>
        match m1.entries.get? idx with
        | some e =>
          let e1 := bumpUsage e
          (some e1, { m1 with entries := m1.entries.set idx e1 })
        | none => (none, m1)
      | none => (none, m1)

/-- `CorpusManager::select_random_input` (`corpus.rs` lines 174–178):
`rng.gen_range(0..self.entries.len())` is modelled by `r % len`; drawing from
the empty range `0..0` panics, modelled by the outer `none`.  The inner
`Option` is the function's own return type (always `Some` when it returns). -/
def select_random_input (r : ℕ) (m : CorpusManager) :
    Option (Option CorpusEntry) :=
  if h : m.entries.length = 0 then none
  else
    some (some (m.entries.get
      ⟨r % m.entries.length, Nat.mod_lt _ (Nat.pos_of_ne_zero h)⟩))

/-- One outcome recorded against a corpus entry: an error or a timeout. -/
inductive DecayEvent where
  | err
  | tmo
deriving DecidableEq

/-- Apply one outcome update to the manager at the given entry index. -/
def applyEvent (index now : ℕ) (m : CorpusManager) : DecayEvent → CorpusManager
  | DecayEvent.err => update_entry_error index now m
  | DecayEvent.tmo => update_entry_timeout index now m

/-- Apply a sequence of error/timeout updates, left to right. -/
def applyEvents (index now : ℕ) (events : List DecayEvent)
    (m : CorpusManager) : CorpusManager :=
  events.foldl (applyEvent index now) m

/-- The first entry with a given index, mirroring
`self.entries.iter_mut().find(|e| e.index == index)`. -/
def findEntry (index : ℕ) (m : CorpusManager) : Option CorpusEntry :=
  m.entries.find? (fun e => e.index == index)

/-- The per-entry mutation performed by `update_entry_error`. -/
def errStep (now : ℕ) (e : CorpusEntry) : CorpusEntry :=
  { e with error_count := e.error_count + 1, last_used := now,
           performance_score := e.performance_score * 0.95 }

/-- The per-entry mutation performed by `update_entry_timeout`. -/
def tmoStep (now : ℕ) (e : CorpusEntry) : CorpusEntry :=
  { e with timeout_count := e.timeout_count + 1, last_used := now,
           performance_score := e.performance_score * 0.90 }

/-- Number of error events in a sequence. -/
def countErr : List DecayEvent → ℕ
  | [] => 0
  | DecayEvent.err :: rest => countErr rest + 1
  | DecayEvent.tmo :: rest => countErr rest

/-- Number of timeout events in a sequence. -/
def countTmo : List DecayEvent → ℕ
  | [] => 0
  | DecayEvent.err :: rest => countTmo rest
  | DecayEvent.tmo :: rest => countTmo rest + 1

/-- `common_subset` of `coverage.rs` lines 188–194: the elements of `set2`
that also occur in `set1` (order and multiplicity of `set2`). -/
def common_subset (set1 set2 : List ℕ) : List ℕ :=
  set2.filter (fun idx => set1.contains idx)

/-- The body of the `for _ in 0..5` loop of `extract_testcase_coverage`
(`coverage.rs` lines 198–240), one recursion step per run of the target.
`runs` carries the newly-hit edge list `cov_evaluate` reports after each run
(the edges are cleared again by `reset_edge_set`, which only touches the
adapter's bitmap). -/
def extractLoop (edges : List ℕ) (lastLen : ℕ) : List (List ℕ) → List ℕ
  | [] => edges
  | newEdges :: rest =>
    let common :=
      if edges.length > 0 ∧ newEdges.length > 0 then common_subset edges newEdges
      else []
    if common ≠ [] then
      if lastLen = common.length then edges
      else extractLoop common common.length rest
    else extractLoop edges lastLen rest

/-- `extract_testcase_coverage` (`coverage.rs` lines 198–240): the edge set
kept after (up to) 5 runs, starting from the caller's initial edge set. -/
def extract_testcase_coverage (initial : List ℕ) (runs : List (List ℕ)) :
    List ℕ :=
  extractLoop initial 0 (runs.take 5)

/-- State of the amended description of `extract_testcase_coverage`: the
running edge set, the size of the last non-empty intersection, and whether
iteration has stopped early. -/
structure ExtractState where
  edges : List ℕ
  lastLen : ℕ
  stopped : Bool

/-- One run of the amended description: a non-empty intersection replaces the
running set unless its size repeats the previous non-empty intersection's
size (which stops iteration, keeping the pre-intersection set); an empty
intersection leaves everything unchanged. -/
def extractStep (st : ExtractState) (newEdges : List ℕ) : ExtractState :=
  if st.stopped then st
  else
    let common := common_subset st.edges newEdges
    if common = [] then st
    else if st.lastLen = common.length then { st with stopped := true }
    else { edges := common, lastLen := common.length, stopped := false }

/-- The amended description of `extract_testcase_coverage` as a fold over the
first 5 runs. -/
def extract_testcase_coverage_amended (initial : List ℕ)
    (runs : List (List ℕ)) : List ℕ :=
  ((runs.take 5).foldl extractStep
    { edges := initial, lastLen := 0, stopped := false }).edges

/-- Follows the spec's words (§4.4), for comparison with the source function:
"reads the newly-hit edges ... and intersects with the running edge set.
Returns the stable subset.  Terminates early if two consecutive iterations
produce the same intersection size." -/
def extractSpecLoop (edges : List ℕ) (lastLen : Option ℕ) :
    List (List ℕ) → List ℕ
  | [] => edges
  | newEdges :: rest =>
    let common := common_subset edges newEdges
    if lastLen = some common.length then common
    else extractSpecLoop common (some common.length) rest

/-- Follows the spec's words (§4.4): the running intersection over up to 5
runs with early termination on a repeated intersection size. -/
def extract_testcase_coverage_specModel (initial : List ℕ)
    (runs : List (List ℕ)) : List ℕ :=
  extractSpecLoop initial none (runs.take 5)

/-- The per-iteration retention test of `maintain_coverage_with_mutated_edges`
(`coverage.rs` line 304): `found_edges.len() as f32 / edges.count as f32 >
0.8`, where `found_edges` collects, for each expected edge, one hit if it
occurs among the newly reported edges. -/
def maintainHit (expected newEdges : List ℕ) : Prop :=
  ((expected.filter (fun x => newEdges.contains x)).length : ℚ)
    / ((expected.length : ℕ) : ℚ) > 0.8

instance (expected newEdges : List ℕ) : Decidable (maintainHit expected newEdges) :=
  inferInstanceAs (Decidable (_ > _))

/-- The `is_new_coverage` update of one iteration of
`maintain_coverage_with_mutated_edges` (`coverage.rs` lines 262–283): a crash
raises the flag; a successful run raises it when strictly more edges than
expected are reported, or when no reported edge occurs in the expected set
(the `is_found` scan). -/
def stepNew (profile : Option String) (expected : List ℕ) (result : Int)
    (newEdges : List ℕ) (isNew : Bool) : Bool :=
  let isNew1 :=
    if get_result_code profile result = ResultCode.Crash then true else isNew
  if get_result_code profile result = ResultCode.Success then
    let isNewA :=
      if newEdges.length > expected.length then true else isNew1
    if newEdges.any (fun x => expected.contains x) then isNewA else true
  else isNew1

/-- The body of the `for i in 0..5` loop of
`maintain_coverage_with_mutated_edges` (`coverage.rs` lines 243–314), one
recursion step per run.  Each run is the raw `execute_script` exit code paired
with the newly reported edges of `cov_evaluate`. -/
def maintainLoop (profile : Option String) (expected : List ℕ) :
    Bool → List (Int × List ℕ) → Bool × Bool
  | isNew, [] => (false, isNew)
  | isNew, (result, newEdges) :: rest =>
    let isNew2 := stepNew profile expected result newEdges isNew
    if maintainHit expected newEdges then (true, isNew2)
    else maintainLoop profile expected isNew2 rest

/-- `maintain_coverage_with_mutated_edges` (`coverage.rs` lines 243–314):
`(maintained, new_coverage)` after at most 5 runs against the already
populated expected edge set. -/
def maintain_coverage_with_mutated_edges (profile : Option String)
    (expected : List ℕ) (runs : List (Int × List ℕ)) : Bool × Bool :=
  maintainLoop profile expected false (runs.take 5)

/-- The per-run `new_coverage` trigger of the maintain loop: a crash, or a
successful run that reports strictly more edges than expected, or a
successful run none of whose reported edges belongs to the expected set
(including a run that reports no edges at all). -/
def newCovRun (profile : Option String) (expected : List ℕ)
    (run : Int × List ℕ) : Bool :=
  if get_result_code profile run.1 = ResultCode.Crash then true
  else if get_result_code profile run.1 = ResultCode.Success then
    if run.2.length > expected.length then true
    else !(run.2.any (fun x => expected.contains x))
  else false

/-- The runs the maintain loop actually executes: everything up to and
including the first run that passes the threshold test. -/
def execRuns (expected : List ℕ) : List (Int × List ℕ) → List (Int × List ℕ)
  | [] => []
  | run :: rest =>
    if maintainHit expected run.2 then [run]
    else run :: execRuns expected rest

/-- C8: for every profile setting and every integer exit code, the
classification follows the spec's table: 0 → Success and 0x10000 (= 65536)
→ Timeout under every profile; Crash exactly for 5, 6, 11 under v8, 256 under
gecko, and 256, 6, 11 under jsc; every other code → Error. -/
theorem get_result_code_table (env : Option String) (c : Int) :
    (get_result_code env c = ResultCode.Success ↔ c = 0)
    ∧ (get_result_code env c = ResultCode.Timeout ↔ c = 65536)
    ∧ (get_result_code env c = ResultCode.Crash ↔
        ((env.getD "v8" = "v8" ∧ (c = 5 ∨ c = 6 ∨ c = 11))
          ∨ (env.getD "v8" = "gecko" ∧ c = 256)
          ∨ (env.getD "v8" = "jsc" ∧ (c = 256 ∨ c = 6 ∨ c = 11))))
    ∧ (get_result_code env c = ResultCode.Error ↔
        (c ≠ 0 ∧ c ≠ 65536 ∧
          ¬ ((env.getD "v8" = "v8" ∧ (c = 5 ∨ c = 6 ∨ c = 11))
            ∨ (env.getD "v8" = "gecko" ∧ c = 256)
            ∨ (env.getD "v8" = "jsc" ∧ (c = 256 ∨ c = 6 ∨ c = 11))))) := by
  simp only [get_result_code]
  split_ifs <;> simp_all

/-- C7: `should_keep_entry` with `has_new_coverage = true` always keeps; with
`has_new_coverage = false` and no bytecode collector attached it always
discards. -/
theorem should_keep_entry_spec (m : CorpusManager) (e : CorpusEntry) :
    (should_keep_entry m e true).1 = true
    ∧ (m.bytecode_collector = none → (should_keep_entry m e false).1 = false) := by
  refine ⟨rfl, fun h => ?_⟩
  simp [should_keep_entry, analyze_bytecode_novelty, h]

/-- Witness for C7 at a concrete manager and entry. -/
theorem should_keep_entry_spec_witness :
    (should_keep_entry (CorpusManager.new 0 10 0) (CorpusEntry.new "" "" 0) true).1 = true
    ∧ (should_keep_entry (CorpusManager.new 0 10 0) (CorpusEntry.new "" "" 0) false).1 = false :=
  ⟨(should_keep_entry_spec (CorpusManager.new 0 10 0) (CorpusEntry.new "" "" 0)).1,
   (should_keep_entry_spec (CorpusManager.new 0 10 0) (CorpusEntry.new "" "" 0)).2 rfl⟩

/-- C9: `select_random_input` returns a clone of one of the entries whenever
the corpus is non-empty, but panics on an empty corpus (empty `gen_range`
range), unlike `select_next_input`, which returns `None` on an empty
corpus. -/
theorem select_random_input_requires_nonempty (r : ℕ) (m : CorpusManager) :
    (m.entries ≠ [] →
      ∃ e, e ∈ m.entries ∧ select_random_input r m = some (some e))
    ∧ (m.entries = [] → select_random_input r m = none)
    ∧ (∀ ρ : ℚ, m.entries = [] → (select_next_input ρ m).1 = none) := by
  refine ⟨fun hne => ?_, fun he => ?_, fun ρ he => ?_⟩
  · have hlen : m.entries.length ≠ 0 := fun h =>
      hne (List.length_eq_zero.mp h)
    refine ⟨m.entries.get ⟨r % m.entries.length,
      Nat.mod_lt _ (Nat.pos_of_ne_zero hlen)⟩, List.get_mem _ _ _, ?_⟩
    simp [select_random_input, hlen]
  · simp [select_random_input, he]
  · simp [select_next_input, he]

/-- Witness for C9: both behaviours at concrete managers (one singleton
corpus, one empty corpus). -/
theorem select_random_input_requires_nonempty_witness :
    (∃ e, e ∈ ({ CorpusManager.new 0 10 0 with
                  entries := [CorpusEntry.new "" "" 0] } : CorpusManager).entries
        ∧ select_random_input 3
            { CorpusManager.new 0 10 0 with entries := [CorpusEntry.new "" "" 0] }
            = some (some e))
    ∧ select_random_input 3 (CorpusManager.new 0 10 0) = none
    ∧ (select_next_input 0 (CorpusManager.new 0 10 0)).1 = none :=
  ⟨(select_random_input_requires_nonempty 3
      { CorpusManager.new 0 10 0 with entries := [CorpusEntry.new "" "" 0] }).1
      (by simp),
   (select_random_input_requires_nonempty 3 (CorpusManager.new 0 10 0)).2.1 rfl,
   (select_random_input_requires_nonempty 3 (CorpusManager.new 0 10 0)).2.2 0 rfl⟩

/-- `updateFirst` is the identity when no element matches. -/
theorem updateFirst_of_no_match (p : α → Bool) (f : α → α) (l : List α)
    (h : ∀ a ∈ l, p a = false) : updateFirst p f l = l := by
  induction l with
  | nil => rfl
  | cons a rest ih =>
    have ha := h a (by simp)
    simp [updateFirst, ha, ih (fun b hb => h b (by simp [hb]))]

/-- C10: `update_entry_success` always sets the manager's
`last_new_coverage` to the current instant and overwrites
`total_coverage[index]` with the given value (replacing, not accumulating),
and when no entry with the given index exists every corpus entry is left
unchanged. -/
theorem update_entry_success_frame (index new_coverage now : ℕ)
    (m : CorpusManager) :
    ((update_entry_success index new_coverage now m).last_new_coverage = now
      ∧ (update_entry_success index new_coverage now m).total_coverage index
          = some new_coverage)
    ∧ ((∀ e ∈ m.entries, e.index ≠ index) →
        (update_entry_success index new_coverage now m).entries = m.entries) := by
  refine ⟨⟨rfl, by simp [update_entry_success]⟩, fun h => ?_⟩
  simp only [update_entry_success]
  exact updateFirst_of_no_match _ _ _ (fun a ha => by
    simpa using h a ha)

/-- Witness for C10 at a concrete manager whose single entry has index 0,
updated at the absent index 5 with previous `total_coverage[5]` present. -/
theorem update_entry_success_frame_witness :
    ((update_entry_success 5 9 7
        { CorpusManager.new 0 10 0 with
          entries := [CorpusEntry.new "" "" 0]
          total_coverage := fun k => if k = 5 then some 2 else none }).last_new_coverage = 7
      ∧ (update_entry_success 5 9 7
          { CorpusManager.new 0 10 0 with
            entries := [CorpusEntry.new "" "" 0]
            total_coverage := fun k => if k = 5 then some 2 else none }).total_coverage 5
          = some 9)
    ∧ (update_entry_success 5 9 7
        { CorpusManager.new 0 10 0 with
          entries := [CorpusEntry.new "" "" 0]
          total_coverage := fun k => if k = 5 then some 2 else none }).entries
        = [CorpusEntry.new "" "" 0] :=
  ⟨(update_entry_success_frame 5 9 7 _).1,
   (update_entry_success_frame 5 9 7 _).2 (by
      intro e he
      simp only [List.mem_singleton] at he
      subst he
      simp [CorpusEntry.new])⟩

/-- The usage penalty strictly decreases when `times_used` is bumped. -/
theorem usagePenalty_strict_anti (e : CorpusEntry) :
    usagePenalty (bumpUsage e) < usagePenalty e := by
  simp only [usagePenalty, bumpUsage]
  have h0 : (0:ℚ) < 1 + (e.times_used : ℚ) * 0.2 := by positivity
  have h1 : 1 + (e.times_used : ℚ) * 0.2
      < 1 + ((e.times_used + 1 : ℕ) : ℚ) * 0.2 := by
    push_cast
    norm_num
  exact one_div_lt_one_div_of_lt h0 h1

/-- C5: for every entry with positive performance score, incrementing
`times_used` while holding every other field fixed strictly decreases the
selection score (the counters are naturals, hence ≥ 0 by construction). -/
theorem entryScore_strict_anti_times_used (e : CorpusEntry)
    (hp : 0 < e.performance_score) :
    entryScore (bumpUsage e) < entryScore e := by
  have hsz : 0 < sizeFactor e := by
    simp only [sizeFactor]; positivity
  have hsu : 0 < successFactor e := by
    simp only [successFactor]; positivity
  have hco : 0 < coverageFactor e := by
    simp only [coverageFactor]; positivity
  have her : 0 < errorPenalty e := by
    simp only [errorPenalty]; positivity
  have htm : 0 < timeoutPenalty e := by
    simp only [timeoutPenalty]; positivity
  have key := usagePenalty_strict_anti e
  have hK : 0 < sizeFactor e * successFactor e * coverageFactor e *
      errorPenalty e * timeoutPenalty e := by positivity
  have h2 : entryScore (bumpUsage e)
      = e.performance_score *
          (sizeFactor e * successFactor e * coverageFactor e * errorPenalty e *
            timeoutPenalty e * usagePenalty (bumpUsage e)) := rfl
  have h3 : entryScore e
      = e.performance_score *
          (sizeFactor e * successFactor e * coverageFactor e * errorPenalty e *
            timeoutPenalty e * usagePenalty e) := rfl
  rw [h2, h3]
  exact mul_lt_mul_of_pos_left (mul_lt_mul_of_pos_left key hK) hp

/-- Witness for C5 at a concrete entry with performance score 1. -/
theorem entryScore_strict_anti_times_used_witness :
    entryScore (bumpUsage (CorpusEntry.new "ir" "var x = 1;" 0))
      < entryScore (CorpusEntry.new "ir" "var x = 1;" 0) :=
  entryScore_strict_anti_times_used (CorpusEntry.new "ir" "var x = 1;" 0)
    (by norm_num [CorpusEntry.new])

/-- `find?` after `updateFirst` with the same predicate: the found element is
the updated one, provided the update preserves the predicate. -/
theorem find?_updateFirst (p : α → Bool) (f : α → α)
    (hpf : ∀ a, p a = true → p (f a) = true) (l : List α) :
    (updateFirst p f l).find? p = (l.find? p).map f := by
  induction l with
  | nil => rfl
  | cons a rest ih =>
    by_cases h : p a = true
    · simp [updateFirst, h, List.find?_cons_of_pos, hpf a h]
    · have h' : p a = false := by simpa using h
      simp [updateFirst, h', List.find?_cons_of_neg, ih]

/-- Effect of `update_entry_error` on the entry found at the given index. -/
theorem findEntry_update_entry_error (index now : ℕ) (m : CorpusManager) :
    findEntry index (update_entry_error index now m)
      = (findEntry index m).map (errStep now) := by
  have h := find?_updateFirst (fun e => e.index == index) (errStep now)
    (fun a ha => ha) m.entries
  simpa [update_entry_error, record_mutation_result, findEntry, errStep] using h

/-- Effect of `update_entry_timeout` on the entry found at the given index. -/
theorem findEntry_update_entry_timeout (index now : ℕ) (m : CorpusManager) :
    findEntry index (update_entry_timeout index now m)
      = (findEntry index m).map (tmoStep now) := by
  have h := find?_updateFirst (fun e => e.index == index) (tmoStep now)
    (fun a ha => ha) m.entries
  simpa [update_entry_timeout, record_mutation_result, findEntry, tmoStep] using h

/-- Auxiliary form of C6 without the initial-score normalisation: any
sequence of error/timeout updates multiplies the found entry's performance
score by `0.95 ^ (number of errors) · 0.90 ^ (number of timeouts)`. -/
theorem performance_decay_aux (index now : ℕ) :
    ∀ (events : List DecayEvent) (m : CorpusManager) (e : CorpusEntry),
      findEntry index m = some e →
      ∃ e1, findEntry index (applyEvents index now events m) = some e1
        ∧ e1.performance_score = e.performance_score
            * (0.95 : ℚ) ^ countErr events * (0.90 : ℚ) ^ countTmo events := by
  intro events
  induction events with
  | nil =>
    intro m e hfind
    exact ⟨e, hfind, by simp [countErr, countTmo]⟩
  | cons u rest ih =>
    intro m e hfind
    cases u with
    | err =>
      have hstep := findEntry_update_entry_error index now m
      rw [hfind] at hstep
      obtain ⟨e1, h1, h2⟩ :=
        ih (update_entry_error index now m) (errStep now e) hstep
      refine ⟨e1, h1, ?_⟩
      simp only [errStep] at h2
      rw [h2]
      show e.performance_score * 0.95
            * (0.95 : ℚ) ^ countErr rest * (0.90 : ℚ) ^ countTmo rest
          = e.performance_score
            * (0.95 : ℚ) ^ (countErr rest + 1) * (0.90 : ℚ) ^ countTmo rest
      ring
    | tmo =>
      have hstep := findEntry_update_entry_timeout index now m
      rw [hfind] at hstep
      obtain ⟨e1, h1, h2⟩ :=
        ih (update_entry_timeout index now m) (tmoStep now e) hstep
      refine ⟨e1, h1, ?_⟩
      simp only [tmoStep] at h2
      rw [h2]
      show e.performance_score * 0.90
            * (0.95 : ℚ) ^ countErr rest * (0.90 : ℚ) ^ countTmo rest
          = e.performance_score
            * (0.95 : ℚ) ^ countErr rest * (0.90 : ℚ) ^ (countTmo rest + 1)
      ring

/-- C6: starting from performance score 1.0 on the entry found at `index`,
any interleaving of `update_entry_error` and `update_entry_timeout` calls for
that index leaves `performance_score = 0.95 ^ (number of errors) · 0.90 ^
(number of timeouts)`; in particular k errors give `0.95 ^ k`, k timeouts
give `0.90 ^ k`, and the order of the updates is irrelevant. -/
theorem performance_decay_commute (index now : ℕ)
    (events : List DecayEvent) (m : CorpusManager) (e : CorpusEntry)
    (hfind : findEntry index m = some e)
    (hscore : e.performance_score = 1) :
    ∃ e1, findEntry index (applyEvents index now events m) = some e1
      ∧ e1.performance_score
          = (0.95 : ℚ) ^ countErr events * (0.90 : ℚ) ^ countTmo events := by
  obtain ⟨e1, h1, h2⟩ := performance_decay_aux index now events m e hfind
  refine ⟨e1, h1, ?_⟩
  rw [h2, hscore, one_mul]

/-- Witness for C6: one error then one timeout on a singleton corpus with
initial performance score 1 yields `0.95 ^ 1 · 0.90 ^ 1`. -/
theorem performance_decay_commute_witness :
    ∃ e1, findEntry 0 (applyEvents 0 4 [DecayEvent.err, DecayEvent.tmo]
        { CorpusManager.new 0 10 0 with entries := [CorpusEntry.new "" "" 0] })
        = some e1
      ∧ e1.performance_score
          = (0.95 : ℚ) ^ countErr [DecayEvent.err, DecayEvent.tmo]
            * (0.90 : ℚ) ^ countTmo [DecayEvent.err, DecayEvent.tmo] :=
  performance_decay_commute 0 4 [DecayEvent.err, DecayEvent.tmo]
    { CorpusManager.new 0 10 0 with entries := [CorpusEntry.new "" "" 0] }
    (CorpusEntry.new "" "" 0) (by simp [findEntry, CorpusEntry.new]) rfl

/-- Every selection-score factor is positive, so the score of an entry with
non-negative performance score is non-negative. -/
theorem entryScore_nonneg (e : CorpusEntry) (hp : 0 ≤ e.performance_score) :
    0 ≤ entryScore e := by
  have h : 0 ≤ sizeFactor e * successFactor e * coverageFactor e *
      errorPenalty e * timeoutPenalty e * usagePenalty e := by
    simp only [sizeFactor, successFactor, coverageFactor, errorPenalty,
      timeoutPenalty, usagePenalty]
    positivity
  exact mul_nonneg hp h

/-- Second components of the enumerated score pairs are the entry scores. -/
theorem enumScores_map_snd (es : List CorpusEntry) : ∀ n : ℕ,
    ((es.enumFrom n).map (fun p => (p.1, entryScore p.2))).map Prod.snd
      = es.map entryScore := by
  induction es with
  | nil => intro n; rfl
  | cons a l ih => intro n; simp only [List.enumFrom, List.map_cons, ih]

/-- The selection walk over non-negative scores terminates at the first index
whose prefix sum reaches the draw, provided the draw does not exceed the
total. -/
theorem selectWalk_exists (es : List CorpusEntry) :
    ∀ (n : ℕ) (r : ℚ),
      (∀ e ∈ es, 0 ≤ entryScore e) → r ≤ (es.map entryScore).sum → es ≠ [] →
      ∃ k, ∃ hk : k < es.length,
        selectWalk r ((es.enumFrom n).map (fun p => (p.1, entryScore p.2)))
          = some (n + k)
        ∧ (∀ j < k, sumTo es (j + 1) < r) ∧ r ≤ sumTo es (k + 1) := by
  induction es with
  | nil => intro n r _ _ hne; exact absurd rfl hne
  | cons a l ih =>
    intro n r hnn hr _
    by_cases hle : r - entryScore a ≤ 0
    · refine ⟨0, Nat.succ_pos _, ?_, ?_, ?_⟩
      · simp only [List.enumFrom, List.map_cons, selectWalk, if_pos hle,
          Nat.add_zero]
      · intro j hj; omega
      · simp only [sumTo, List.take_succ_cons, List.take_zero, List.map_cons,
          List.map_nil, List.sum_cons, List.sum_nil, add_zero]
        linarith
    · push_neg at hle
      have ha0 : 0 ≤ entryScore a := hnn a (List.mem_cons_self a l)
      have hsum : (List.map entryScore (a :: l)).sum
          = entryScore a + (l.map entryScore).sum := by simp
      have hlne : l ≠ [] := by
        rintro rfl
        simp only [List.map_cons, List.map_nil, List.sum_cons, List.sum_nil,
          add_zero] at hr
        linarith
      have hr' : r - entryScore a ≤ (l.map entryScore).sum := by
        rw [hsum] at hr; linarith
      obtain ⟨k, hk, hwalk, hlt, hge⟩ := ih (n + 1) (r - entryScore a)
        (fun e he => hnn e (List.mem_cons_of_mem a he)) hr' hlne
      refine ⟨k + 1, Nat.succ_lt_succ hk, ?_, ?_, ?_⟩
      · simp only [List.enumFrom, List.map_cons, selectWalk,
          if_neg (not_le.mpr (by linarith : (0:ℚ) < r - entryScore a))]
        rw [hwalk]
        congr 1
        omega
      · intro j hj
        cases j with
        | zero =>
          simp only [sumTo, List.take_succ_cons, List.take_zero,
            List.map_cons, List.map_nil, List.sum_cons, List.sum_nil, add_zero]
          linarith
        | succ j' =>
          have hj' : j' < k := by omega
          have hlt' := hlt j' hj'
          simp only [sumTo] at hlt' ⊢
          simp only [List.take_succ_cons, List.map_cons, List.sum_cons]
          linarith
      · have hge' := hge
        simp only [sumTo] at hge' ⊢
        simp only [List.take_succ_cons, List.map_cons, List.sum_cons]
        linarith

/-- C4: `select_next_input` returns no entry exactly when the corpus is empty
or the total selection score is zero; otherwise it returns the first entry
whose score prefix sum reaches the draw `r = ρ · Σscore` (the walk that keeps
subtracting scores until `r ≤ 0`), with exactly that entry's `times_used`
incremented, in the returned clone and in the stored corpus alike. -/
theorem select_next_input_spec (ρ : ℚ) (m : CorpusManager)
    (hρ0 : 0 ≤ ρ) (hρ1 : ρ < 1)
    (hperf : ∀ e ∈ m.entries, 0 ≤ e.performance_score) :
    ((select_next_input ρ m).1 = none ↔
        m.entries = [] ∨ totalScore m.entries = 0)
    ∧ (∀ e1, (select_next_input ρ m).1 = some e1 →
        ∃ i, ∃ hi : i < m.entries.length,
          e1 = bumpUsage (m.entries.get ⟨i, hi⟩)
          ∧ (select_next_input ρ m).2.entries = m.entries.set i e1
          ∧ (∀ j < i, sumTo m.entries (j + 1) < ρ * totalScore m.entries)
          ∧ ρ * totalScore m.entries ≤ sumTo m.entries (i + 1)) := by
  by_cases hemp : m.entries = []
  · constructor
    · simp [select_next_input, hemp]
    · intro e1 h1
      simp [select_next_input, hemp] at h1
  · have hnn : ∀ e ∈ m.entries, 0 ≤ entryScore e :=
      fun e he => entryScore_nonneg e (hperf e he)
    have hne : m.entries.isEmpty = false := by
      cases hm : m.entries with
      | nil => exact absurd hm hemp
      | cons a l => rfl
    have htot0 : 0 ≤ totalScore m.entries := by
      refine List.sum_nonneg ?_
      intro x hx
      obtain ⟨e, he, rfl⟩ := List.mem_map.mp hx
      exact hnn e he
    have htot_eq : ((scoreList m.entries).map Prod.snd).sum
        = totalScore m.entries := by
      rw [show scoreList m.entries
          = (m.entries.enumFrom 0).map (fun p => (p.1, entryScore p.2)) from rfl]
      rw [enumScores_map_snd m.entries 0]
      rfl
    by_cases htz : totalScore m.entries = 0
    · have hle0 : ((scoreList m.entries).map Prod.snd).sum ≤ 0 := by
        rw [htot_eq, htz]
      constructor
      · simp [select_next_input, hne, hle0, htz]
      · intro e1 h1
        simp [select_next_input, hne, hle0] at h1
    · have htpos : 0 < totalScore m.entries := lt_of_le_of_ne htot0 (Ne.symm htz)
      have hrle : ρ * totalScore m.entries ≤ (m.entries.map entryScore).sum := by
        have : ρ * totalScore m.entries < 1 * totalScore m.entries :=
          mul_lt_mul_of_pos_right hρ1 htpos
        rw [one_mul] at this
        exact le_of_lt this
      obtain ⟨k, hk, hwalk, hlt, hge⟩ :=
        selectWalk_exists m.entries 0 (ρ * totalScore m.entries) hnn hrle hemp
      have hsw : selectWalk (ρ * totalScore m.entries) (scoreList m.entries)
          = some k := by
        rw [show scoreList m.entries
            = (m.entries.enumFrom 0).map (fun p => (p.1, entryScore p.2)) from rfl]
        simpa using hwalk
      have hnle : ¬ ((scoreList m.entries).map Prod.snd).sum ≤ 0 := by
        rw [htot_eq]; exact not_le.mpr htpos
      have hget : m.entries.get? k = some (m.entries.get ⟨k, hk⟩) :=
        List.get?_eq_get hk
      have hkey : select_next_input ρ m
          = (some (bumpUsage (m.entries.get ⟨k, hk⟩)),
             { m with
               selection_counter := m.selection_counter + 1
               entries := m.entries.set k (bumpUsage (m.entries.get ⟨k, hk⟩)) }) := by
        simp only [select_next_input, hne, Bool.false_eq_true, if_false,
          htot_eq, if_neg (not_le.mpr htpos), hsw, hget]
      constructor
      · rw [hkey]
        simp [hemp, htz]
      · intro e1 h1
        rw [hkey] at h1
        simp only [Option.some_inj] at h1
        refine ⟨k, hk, h1.symm, ?_, hlt, hge⟩
        rw [hkey, h1]

/-- Witness for C4 at a concrete one-entry corpus and draw 1/2. -/
theorem select_next_input_spec_witness :
    ((select_next_input (1/2)
        { CorpusManager.new 0 10 0 with
          entries := [CorpusEntry.new "" "" 0] }).1 = none ↔
      ({ CorpusManager.new 0 10 0 with
          entries := [CorpusEntry.new "" "" 0] } : CorpusManager).entries = []
      ∨ totalScore ({ CorpusManager.new 0 10 0 with
            entries := [CorpusEntry.new "" "" 0] } : CorpusManager).entries = 0)
    ∧ (∀ e1, (select_next_input (1/2)
          { CorpusManager.new 0 10 0 with
            entries := [CorpusEntry.new "" "" 0] }).1 = some e1 →
        ∃ i, ∃ hi : i < ({ CorpusManager.new 0 10 0 with
            entries := [CorpusEntry.new "" "" 0] } : CorpusManager).entries.length,
          e1 = bumpUsage (({ CorpusManager.new 0 10 0 with
              entries := [CorpusEntry.new "" "" 0] } : CorpusManager).entries.get ⟨i, hi⟩)
          ∧ (select_next_input (1/2)
              { CorpusManager.new 0 10 0 with
                entries := [CorpusEntry.new "" "" 0] }).2.entries
            = ({ CorpusManager.new 0 10 0 with
                entries := [CorpusEntry.new "" "" 0] } : CorpusManager).entries.set i e1
          ∧ (∀ j < i, sumTo ({ CorpusManager.new 0 10 0 with
                entries := [CorpusEntry.new "" "" 0] } : CorpusManager).entries (j + 1)
              < (1/2) * totalScore ({ CorpusManager.new 0 10 0 with
                  entries := [CorpusEntry.new "" "" 0] } : CorpusManager).entries)
          ∧ (1/2) * totalScore ({ CorpusManager.new 0 10 0 with
                entries := [CorpusEntry.new "" "" 0] } : CorpusManager).entries
              ≤ sumTo ({ CorpusManager.new 0 10 0 with
                  entries := [CorpusEntry.new "" "" 0] } : CorpusManager).entries (i + 1)) :=
  select_next_input_spec (1/2)
    { CorpusManager.new 0 10 0 with entries := [CorpusEntry.new "" "" 0] }
    (by norm_num) (by norm_num)
    (by
      intro e he
      simp only [List.mem_singleton] at he
      subst he
      norm_num [CorpusEntry.new])

/-- The emptiness guard of the source is redundant: the intersection is empty
whenever either operand is. -/
theorem extract_guard_eq (edges newEdges : List ℕ) :
    (if edges.length > 0 ∧ newEdges.length > 0 then common_subset edges newEdges
     else [])
      = common_subset edges newEdges := by
  by_cases h : edges.length > 0 ∧ newEdges.length > 0
  · rw [if_pos h]
  · rw [if_neg h]
    push_neg at h
    by_cases he : edges = []
    · subst he
      simp [common_subset]
    · have hn : newEdges = [] := by
        have hep : 0 < edges.length := List.length_pos.mpr he
        have := h hep
        exact List.length_eq_zero.mp (Nat.le_zero.mp this)
      subst hn
      simp [common_subset]

/-- Once stopped, the amended fold absorbs every further run. -/
theorem foldl_extractStep_stopped :
    ∀ (runs : List (List ℕ)) (st : ExtractState), st.stopped = true →
      runs.foldl extractStep st = st := by
  intro runs
  induction runs with
  | nil => intro st _; rfl
  | cons newEdges rest ih =>
    intro st hst
    have hstep : extractStep st newEdges = st := by
      simp [extractStep, hst]
    simp only [List.foldl_cons, hstep]
    exact ih st hst

/-- The source loop computes exactly the amended fold. -/
theorem extractLoop_eq_foldl :
    ∀ (runs : List (List ℕ)) (edges : List ℕ) (lastLen : ℕ),
      extractLoop edges lastLen runs
        = (runs.foldl extractStep
            { edges := edges, lastLen := lastLen, stopped := false }).edges := by
  intro runs
  induction runs with
  | nil => intro edges lastLen; rfl
  | cons newEdges rest ih =>
    intro edges lastLen
    have hunf : extractLoop edges lastLen (newEdges :: rest)
        = if common_subset edges newEdges ≠ [] then
            if lastLen = (common_subset edges newEdges).length then edges
            else extractLoop (common_subset edges newEdges)
              (common_subset edges newEdges).length rest
          else extractLoop edges lastLen rest := by
      simp only [extractLoop, extract_guard_eq]
    by_cases hc : common_subset edges newEdges = []
    · have hstep : extractStep
          { edges := edges, lastLen := lastLen, stopped := false } newEdges
          = { edges := edges, lastLen := lastLen, stopped := false } := by
        simp [extractStep, hc]
      rw [hunf, if_neg (fun h => h hc), List.foldl_cons, hstep]
      exact ih edges lastLen
    · by_cases hl : lastLen = (common_subset edges newEdges).length
      · have hstep : extractStep
            { edges := edges, lastLen := lastLen, stopped := false } newEdges
            = { edges := edges, lastLen := lastLen, stopped := true } := by
          simp [extractStep, hc, hl]
        rw [hunf, if_pos hc, if_pos hl, List.foldl_cons, hstep,
          foldl_extractStep_stopped rest
            { edges := edges, lastLen := lastLen, stopped := true } rfl]
      · have hstep : extractStep
            { edges := edges, lastLen := lastLen, stopped := false } newEdges
            = { edges := common_subset edges newEdges,
                lastLen := (common_subset edges newEdges).length,
                stopped := false } := by
          simp [extractStep, hc, hl]
        rw [hunf, if_pos hc, if_neg hl, List.foldl_cons, hstep]
        exact ih _ _

/-- C3 counterexample: with initial set `[1]` and five runs that each newly
hit only edge `2`, the source function returns `[1]` (an empty intersection
never replaces the running set), while the spec's running intersection is
empty. -/
theorem extract_testcase_coverage_cex :
    extract_testcase_coverage [1] (List.replicate 5 [2]) = [1]
    ∧ extract_testcase_coverage_specModel [1] (List.replicate 5 [2]) = []
    ∧ ([1] : List ℕ) ≠ [] := by decide

/-- C3 as amended: `extract_testcase_coverage` equals the fold in which a
run's intersection with the running set replaces it only when non-empty,
iteration stops early when a non-empty intersection repeats the previous
non-empty intersection's size (returning the pre-intersection set), and runs
with an empty intersection leave the state unchanged. -/
theorem extract_testcase_coverage_amended_eq (initial : List ℕ)
    (runs : List (List ℕ)) :
    extract_testcase_coverage initial runs
      = extract_testcase_coverage_amended initial runs :=
  extractLoop_eq_foldl (runs.take 5) initial 0

/-- Unfolding lemma for one iteration of the maintain loop. -/
theorem maintainLoop_cons (profile : Option String) (expected : List ℕ)
    (isNew : Bool) (result : Int) (newEdges : List ℕ)
    (rest : List (Int × List ℕ)) :
    maintainLoop profile expected isNew ((result, newEdges) :: rest)
      = if maintainHit expected newEdges
        then (true, stepNew profile expected result newEdges isNew)
        else maintainLoop profile expected
          (stepNew profile expected result newEdges isNew) rest := rfl

/-- Over naturals, the strict `> 0.8` ratio test is the inequality
`4 · |expected| < 5 · |found|` (also at `|expected| = 0`, where the rational
division yields 0). -/
theorem maintainHit_iff (expected newEdges : List ℕ) :
    maintainHit expected newEdges
      ↔ 4 * expected.length
          < 5 * (expected.filter (fun x => newEdges.contains x)).length := by
  have hf : (expected.filter (fun x => newEdges.contains x)).length
      ≤ expected.length := List.length_filter_le _ _
  unfold maintainHit
  rcases Nat.eq_zero_or_pos expected.length with hc | hc
  · rw [hc]
    have hf0 : (expected.filter (fun x => newEdges.contains x)).length = 0 := by
      omega
    rw [hf0]
    norm_num
  · have hc' : (0 : ℚ) < ((expected.length : ℕ) : ℚ) := by exact_mod_cast hc
    rw [gt_iff_lt, show (0.8 : ℚ) = 4 / 5 by norm_num,
      div_lt_div_iff (by norm_num) hc']
    constructor
    · intro h
      have h' : (4 : ℚ) * expected.length
          < 5 * (expected.filter (fun x => newEdges.contains x)).length := by
        linarith
      exact_mod_cast h'
    · intro h
      have h' : (4 : ℚ) * expected.length
          < 5 * (expected.filter (fun x => newEdges.contains x)).length := by
        exact_mod_cast h
      linarith

/-- The first component of the maintain loop is `true` exactly when some run
passes the strict threshold test, regardless of the accumulated
`new_coverage` flag. -/
theorem maintainLoop_fst (profile : Option String) (expected : List ℕ) :
    ∀ (runs : List (Int × List ℕ)) (b : Bool),
      (maintainLoop profile expected b runs).1 = true
        ↔ ∃ r ∈ runs, maintainHit expected r.2 := by
  intro runs
  induction runs with
  | nil => intro b; simp [maintainLoop]
  | cons run rest ih =>
    intro b
    obtain ⟨result, newEdges⟩ := run
    by_cases hc : maintainHit expected newEdges
    · simp [maintainLoop_cons, hc]
    · rw [maintainLoop_cons, if_neg hc, ih _]
      constructor
      · rintro ⟨r, hr, h⟩
        exact ⟨r, List.mem_cons_of_mem _ hr, h⟩
      · rintro ⟨r, hr, h⟩
        rcases List.mem_cons.mp hr with heq | hr'
        · subst heq
          exact absurd h hc
        · exact ⟨r, hr', h⟩

/-- C1 counterexample: expected set `{1,2,3,4,5}` and five successful runs
each newly reporting `{1,2,3,4}`: exactly 80% of the expected edges are
present (`5 · |found| = 4 · |expected|`), yet the function returns
`(false, _)` because the source test is strictly greater than 0.8. -/
theorem maintain_coverage_threshold_cex :
    (maintain_coverage_with_mutated_edges none [1, 2, 3, 4, 5]
        (List.replicate 5 ((0 : Int), [1, 2, 3, 4]))).1 = false
    ∧ 5 * (([1, 2, 3, 4, 5] : List ℕ).filter
          (fun x => ([1, 2, 3, 4] : List ℕ).contains x)).length
        = 4 * ([1, 2, 3, 4, 5] : List ℕ).length := by
  have hnm : ¬ maintainHit [1, 2, 3, 4, 5] [1, 2, 3, 4] := by
    rw [maintainHit_iff]
    decide
  have hstep : stepNew none [1, 2, 3, 4, 5] 0 [1, 2, 3, 4] false = false := by
    decide
  refine ⟨?_, by decide⟩
  rw [maintain_coverage_with_mutated_edges,
    show List.take 5 (List.replicate 5 ((0 : Int), [1, 2, 3, 4]))
        = [((0 : Int), [1, 2, 3, 4]), (0, [1, 2, 3, 4]), (0, [1, 2, 3, 4]),
           (0, [1, 2, 3, 4]), (0, [1, 2, 3, 4])] from by decide,
    maintainLoop_cons, if_neg hnm, hstep,
    maintainLoop_cons, if_neg hnm, hstep,
    maintainLoop_cons, if_neg hnm, hstep,
    maintainLoop_cons, if_neg hnm, hstep,
    maintainLoop_cons, if_neg hnm, hstep]
  rfl

/-- C1 as amended: `maintain_coverage_with_mutated_edges` returns
`(true, _)` iff some of its at most 5 runs reports edges containing strictly
more than 80% of the expected edges, and `(false, _)` when that strict
threshold is never reached. -/
theorem maintain_coverage_threshold_amended (profile : Option String)
    (expected : List ℕ) (runs : List (Int × List ℕ)) :
    (maintain_coverage_with_mutated_edges profile expected runs).1 = true
      ↔ ∃ r ∈ runs.take 5,
          4 * expected.length
            < 5 * (expected.filter (fun x => (r.2).contains x)).length := by
  rw [maintain_coverage_with_mutated_edges,
    maintainLoop_fst profile expected (runs.take 5) false]
  constructor
  · rintro ⟨r, hr, h⟩
    exact ⟨r, hr, (maintainHit_iff expected r.2).mp h⟩
  · rintro ⟨r, hr, h⟩
    exact ⟨r, hr, (maintainHit_iff expected r.2).mpr h⟩

/-- `stepNew` disjoined into the accumulated flag and the per-run trigger. -/
theorem stepNew_eq (profile : Option String) (expected : List ℕ)
    (result : Int) (newEdges : List ℕ) (b : Bool) :
    stepNew profile expected result newEdges b
      = (b || newCovRun profile expected (result, newEdges)) := by
  by_cases h1 : get_result_code profile result = ResultCode.Crash
  · have h2 : ¬ get_result_code profile result = ResultCode.Success := by
      simp [h1]
    simp [stepNew, newCovRun, h1, h2]
  · by_cases h2 : get_result_code profile result = ResultCode.Success
    · by_cases h4 : newEdges.length > expected.length
      · simp [stepNew, newCovRun, h1, h2, h4]
      · cases hany : newEdges.any (fun x => expected.contains x) with
        | true =>
          simp only [stepNew, newCovRun]
          rw [hany]
          simp [h1, h2, h4]
        | false =>
          simp only [stepNew, newCovRun]
          rw [hany]
          simp [h1, h2, h4]
    · simp [stepNew, newCovRun, h1, h2]

/-- Unfolding lemma for one step of `execRuns`. -/
theorem execRuns_cons (expected : List ℕ) (result : Int) (newEdges : List ℕ)
    (rest : List (Int × List ℕ)) :
    execRuns expected ((result, newEdges) :: rest)
      = if maintainHit expected newEdges then [(result, newEdges)]
        else (result, newEdges) :: execRuns expected rest := rfl

/-- The second component of the maintain loop accumulates `newCovRun` over
the executed runs. -/
theorem maintainLoop_snd (profile : Option String) (expected : List ℕ) :
    ∀ (runs : List (Int × List ℕ)) (b : Bool),
      (maintainLoop profile expected b runs).2
        = (b || (execRuns expected runs).any (newCovRun profile expected)) := by
  intro runs
  induction runs with
  | nil => intro b; simp [maintainLoop, execRuns]
  | cons run rest ih =>
    intro b
    obtain ⟨result, newEdges⟩ := run
    rw [maintainLoop_cons, stepNew_eq, execRuns_cons]
    by_cases hc : maintainHit expected newEdges
    · rw [if_pos hc, if_pos hc]
      simp
    · rw [if_neg hc, if_neg hc, ih _]
      simp [Bool.or_assoc]

/-- C2 counterexample: expected set `{10, 20}` and five successful runs each
newly reporting only edge `30`: no crash occurs and never are strictly more
edges than expected reported (1 < 2), yet the function returns
`new_coverage = true`, because a successful run whose reported edges are
disjoint from the expected set also raises the flag. -/
theorem maintain_new_coverage_cex :
    maintain_coverage_with_mutated_edges none [10, 20]
        (List.replicate 5 ((0 : Int), [30])) = (false, true)
    ∧ get_result_code none 0 = ResultCode.Success
    ∧ ¬ ([30] : List ℕ).length > ([10, 20] : List ℕ).length := by
  have hnm : ¬ maintainHit [10, 20] [30] := by
    rw [maintainHit_iff]
    decide
  have hstep1 : stepNew none [10, 20] 0 [30] false = true := by decide
  have hstep2 : stepNew none [10, 20] 0 [30] true = true := by decide
  refine ⟨?_, by decide, by decide⟩
  rw [maintain_coverage_with_mutated_edges,
    show List.take 5 (List.replicate 5 ((0 : Int), [30]))
        = [((0 : Int), [30]), (0, [30]), (0, [30]), (0, [30]), (0, [30])]
      from by decide,
    maintainLoop_cons, if_neg hnm, hstep1,
    maintainLoop_cons, if_neg hnm, hstep2,
    maintainLoop_cons, if_neg hnm, hstep2,
    maintainLoop_cons, if_neg hnm, hstep2,
    maintainLoop_cons, if_neg hnm, hstep2]
  rfl

/-- C2 as amended: `new_coverage = true` iff some executed run (up to and
including the first that passes the threshold) observes a crash, or a
success reporting strictly more edges than expected, or a success none of
whose reported edges belongs to the expected set. -/
theorem maintain_new_coverage_amended (profile : Option String)
    (expected : List ℕ) (runs : List (Int × List ℕ)) :
    (maintain_coverage_with_mutated_edges profile expected runs).2
      = (execRuns expected (runs.take 5)).any (newCovRun profile expected) := by
  rw [maintain_coverage_with_mutated_edges,
    maintainLoop_snd profile expected (runs.take 5) false, Bool.false_or]
